import Mathlib

/-!
# Verification of the awgo fuzzy matching and ranking engine

Shallow embedding of the fuzzy string-matching / sorting engine of the
repository (package `aw`: `SortOptions`, `Result`, `Match`, `Sorter`).

Modelling conventions:
* Go `float64` scores are modelled as exact rationals (`Rat`).  Every default
  weight and every concrete input in the claims is a small integer, where
  float64 arithmetic is exact.
* Go strings are converted to `[]rune` by the source before scanning; we model
  a rune as a Lean `Char` (one Unicode code point) and the rune slice as
  `String.toList`.  Go `strings.ToLower`/`ToUpper` applied to a single-rune
  string is modelled by `Char.toLower`/`Char.toUpper`.
* The source keeps `bestLetter`/`bestLower` as single-rune strings, with `""`
  meaning "no pending letter"; we model the pair as an `Option Char`
  (`bestLower` is always `Char.toLower` of `bestLetter` in the source, so it
  is recomputed on demand here).
* The empty-string checks of the source (`queryChar != ""` etc.) become
  `Option.isSome` checks under this encoding.
-/

namespace AwGo

/-- Default bonuses and penalties for fuzzy sorting (source constants). -/
def DefaultAdjacencyBonus : Rat := 5

/-- Bonus if the match is after a separator. -/
def DefaultSeparatorBonus : Rat := 10

/-- Bonus if match is uppercase and previous is lower. -/
def DefaultCamelBonus : Rat := 10

/-- Penalty applied for every letter in string before first match. -/
def DefaultLeadingLetterPenalty : Rat := -3

/-- Maximum penalty for leading letters. -/
def DefaultMaxLeadingLetterPenalty : Rat := -9

/-- Penalty for every letter that doesn't match. -/
def DefaultUnmatchedLetterPenalty : Rat := -1

/-- `SortOptions` sets bonuses and penalties for `Sorter` (source struct). -/
structure SortOptions where
  AdjacencyBonus : Rat
  SeparatorBonus : Rat
  CamelBonus : Rat
  LeadingLetterPenalty : Rat
  MaxLeadingLetterPenalty : Rat
  UnmatchedLetterPenalty : Rat
deriving Repr, DecidableEq

/-- `NewSortOptions` creates a `SortOptions` object with the default values. -/
def NewSortOptions : SortOptions :=
  { AdjacencyBonus := DefaultAdjacencyBonus
    SeparatorBonus := DefaultSeparatorBonus
    CamelBonus := DefaultCamelBonus
    LeadingLetterPenalty := DefaultLeadingLetterPenalty
    MaxLeadingLetterPenalty := DefaultMaxLeadingLetterPenalty
    UnmatchedLetterPenalty := DefaultUnmatchedLetterPenalty }

/-- `Result` stores the result of a single fuzzy ranking (source struct). -/
structure Result where
  Match : Bool
  Query : String
  Score : Rat
  SortKey : String
deriving Repr, DecidableEq

/-- The mutable locals of the source `Match` loop that survive from one
iteration to the next (query cursor, current string position, running score,
pending best letter and its pending score, and the three carried booleans). -/
structure MatchState where
  queryIdx : Nat
  strIdx : Nat
  score : Rat
  bestLetter : Option Char
  bestLetterScore : Rat
  prevMatched : Bool
  prevLower : Bool
  prevSeparator : Bool
deriving Repr, DecidableEq

/-- Zero values of the loop locals; `prevSeparator` starts `true`
("beginning of string is treated like a separator"). -/
def initState : MatchState :=
  { queryIdx := 0, strIdx := 0, score := 0, bestLetter := none,
    bestLetterScore := 0, prevMatched := false, prevLower := false,
    prevSeparator := true }

/-- Source condition `queryChar != "" && queryLower == strLower`:
the current string character matches the next unconsumed query character,
case-insensitively. -/
def nextMatchB (uQuery : List Char) (st : MatchState) (strChar : Char) : Bool :=
  uQuery[st.queryIdx]?.map Char.toLower == some strChar.toLower

/-- Source condition `bestLetter != "" && bestLower == strLower`:
the current string character equals the pending best letter,
case-insensitively. -/
def rematchB (st : MatchState) (strChar : Char) : Bool :=
  st.bestLetter.map Char.toLower == some strChar.toLower

/-- The leading-letter penalty of the source: `strIdx * LeadingLetterPenalty`,
clamped so it is never more negative than `MaxLeadingLetterPenalty`. -/
def leadPenalty (o : SortOptions) (strIdx : Nat) : Rat :=
  let penalty := (strIdx : Rat) * o.LeadingLetterPenalty
  if penalty ≤ o.MaxLeadingLetterPenalty then o.MaxLeadingLetterPenalty
  else penalty

/-- One iteration of the `Match` scan loop of the source, processing string
character `strChar` at position `st.strIdx`. -/
def matchStep (o : SortOptions) (uQuery : List Char) (st : MatchState)
    (strChar : Char) : MatchState :=
  let strLower := strChar.toLower
  let strUpper := strChar.toUpper
  let nextMatch := nextMatchB uQuery st strChar
  let rematch := rematchB st strChar
  let advanced := nextMatch && st.bestLetter.isSome
  let queryRepeat := st.bestLetter.isSome &&
    (st.bestLetter.map Char.toLower == uQuery[st.queryIdx]?.map Char.toLower)
  -- `if advanced || queryRepeat { score += bestLetterScore; clear pending }`
  let score0 := if advanced || queryRepeat then st.score + st.bestLetterScore else st.score
  let bestLetter0 := if advanced || queryRepeat then (none : Option Char) else st.bestLetter
  let bestScore0 := if advanced || queryRepeat then (0 : Rat) else st.bestLetterScore
  let prevLower1 := strChar == strLower && strLower != strUpper
  let prevSep1 := strChar == '_' || strChar == ' '
  if nextMatch || rematch then
    -- penalty for letters before the first match, added to the running score
    let score1 := if st.queryIdx == 0 then score0 + leadPenalty o st.strIdx else score0
    -- bonuses accumulate into the pending increment `newScore`
    let newScore : Rat :=
      (if st.prevMatched then o.AdjacencyBonus else 0) +
      (if st.prevSeparator then o.SeparatorBonus else 0) +
      (if st.prevLower && strChar == strUpper && strLower != strUpper then o.CamelBonus else 0)
    let queryIdx1 := if nextMatch then st.queryIdx + 1 else st.queryIdx
    if newScore ≥ bestScore0 then
      { queryIdx := queryIdx1, strIdx := st.strIdx + 1,
        score := if bestLetter0.isSome then score1 + o.UnmatchedLetterPenalty else score1,
        bestLetter := some strChar, bestLetterScore := newScore,
        prevMatched := true, prevLower := prevLower1, prevSeparator := prevSep1 }
    else
      { queryIdx := queryIdx1, strIdx := st.strIdx + 1, score := score1,
        bestLetter := bestLetter0, bestLetterScore := bestScore0,
        prevMatched := true, prevLower := prevLower1, prevSeparator := prevSep1 }
  else
    { queryIdx := st.queryIdx, strIdx := st.strIdx + 1,
      score := score0 + o.UnmatchedLetterPenalty,
      bestLetter := bestLetter0, bestLetterScore := bestScore0,
      prevMatched := false, prevLower := prevLower1, prevSeparator := prevSep1 }

/-- `Match` scores `str` for `query` (source function): a single left-to-right
scan over the runes of `str`, then commit of a remaining pending letter, then
the verdict `queryIdx == queryLen`. -/
def Match (str query : String) (o : SortOptions) : Result :=
  let uStr := str.toList
  let uQuery := query.toList
  let final := uStr.foldl (matchStep o uQuery) initState
  let score :=
    if final.bestLetter.isSome then final.score + final.bestLetterScore else final.score
  { Match := final.queryIdx == uQuery.length, Query := query,
    Score := score, SortKey := str }

/-! ## The query cursor: greedy subsequence matching

The query cursor `queryIdx` advances exactly on a `nextMatch`, independently of
all score bookkeeping.  We relate its final value to the textbook greedy
subsequence scan `subseqMatch`, and that scan to `List.Sublist`. -/

/-- Greedy case-insensitive subsequence scan: consume the candidate list left
to right, advancing in the query on each case-insensitive match. -/
def subseqMatch : List Char → List Char → Bool
  | [], _ => true
  | _ :: _, [] => false
  | q :: qs, c :: cs =>
    if q.toLower == c.toLower then subseqMatch qs cs else subseqMatch (q :: qs) cs

theorem matchStep_queryIdx (o : SortOptions) (uQuery : List Char) (st : MatchState)
    (c : Char) :
    (matchStep o uQuery st c).queryIdx =
      if nextMatchB uQuery st c then st.queryIdx + 1 else st.queryIdx := by
  simp only [matchStep, apply_ite MatchState.queryIdx]
  by_cases hn : nextMatchB uQuery st c <;> by_cases hr : rematchB st c <;>
    simp [hn, hr]

theorem matchStep_queryIdx_le (o : SortOptions) (uQuery : List Char)
    (st : MatchState) (c : Char) (h : st.queryIdx ≤ uQuery.length) :
    (matchStep o uQuery st c).queryIdx ≤ uQuery.length := by
  rw [matchStep_queryIdx]
  split
  · next hn =>
    have hne : uQuery[st.queryIdx]? ≠ none := by
      intro hnone
      simp [nextMatchB, hnone] at hn
    have hlt : st.queryIdx < uQuery.length := by
      by_contra hlt
      exact hne (List.getElem?_eq_none (Nat.le_of_not_lt hlt))
    omega
  · exact h

theorem foldl_queryIdx_iff (o : SortOptions) (uQuery : List Char) :
    ∀ (cs : List Char) (st : MatchState), st.queryIdx ≤ uQuery.length →
      ((cs.foldl (matchStep o uQuery) st).queryIdx = uQuery.length ↔
        subseqMatch (uQuery.drop st.queryIdx) cs = true)
  | [], st, h => by
    rw [List.foldl_nil]
    cases Nat.lt_or_ge st.queryIdx uQuery.length with
    | inl hlt =>
      rw [List.drop_eq_getElem_cons hlt]
      simp [subseqMatch]
      omega
    | inr hge =>
      have he : st.queryIdx = uQuery.length := Nat.le_antisymm h hge
      rw [List.drop_eq_nil_of_le hge]
      simp [subseqMatch, he]
  | c :: cs, st, h => by
    rw [List.foldl_cons]
    have hstep := foldl_queryIdx_iff o uQuery cs (matchStep o uQuery st c)
      (matchStep_queryIdx_le o uQuery st c h)
    cases hq : uQuery[st.queryIdx]? with
    | none =>
      have hge : uQuery.length ≤ st.queryIdx := by
        by_contra hlt
        rw [List.getElem?_eq_getElem (Nat.lt_of_not_le hlt)] at hq
        exact Option.noConfusion hq
      have he : st.queryIdx = uQuery.length := Nat.le_antisymm h hge
      have hn : nextMatchB uQuery st c = false := by simp [nextMatchB, hq]
      have hqi : (matchStep o uQuery st c).queryIdx = st.queryIdx := by
        rw [matchStep_queryIdx, hn]; rfl
      rw [hstep, hqi, he, List.drop_length]
      simp [subseqMatch]
    | some q =>
      have hlt : st.queryIdx < uQuery.length := by
        by_contra hlt
        rw [List.getElem?_eq_none (Nat.le_of_not_lt hlt)] at hq
        exact Option.noConfusion hq
      have hgetq : uQuery[st.queryIdx] = q := by
        rw [List.getElem?_eq_getElem hlt] at hq
        exact Option.some.inj hq
      have hdrop : uQuery.drop st.queryIdx = q :: uQuery.drop (st.queryIdx + 1) := by
        rw [List.drop_eq_getElem_cons hlt, hgetq]
      by_cases hm : (q.toLower == c.toLower) = true
      · have hn : nextMatchB uQuery st c = true := by
          simp [nextMatchB, hq]
          exact eq_of_beq hm
        have hqi : (matchStep o uQuery st c).queryIdx = st.queryIdx + 1 := by
          rw [matchStep_queryIdx, hn]; rfl
        rw [hstep, hqi, hdrop]
        simp [subseqMatch, hm]
      · have hmne : q.toLower ≠ c.toLower := by simpa using hm
        have hn : nextMatchB uQuery st c = false := by
          simp [nextMatchB, hq, hmne]
        have hqi : (matchStep o uQuery st c).queryIdx = st.queryIdx := by
          rw [matchStep_queryIdx, hn]; rfl
        rw [hstep, hqi, hdrop]
        simp only [subseqMatch, hm, if_false, Bool.false_eq_true]

/-- The greedy scan succeeds exactly when the case-folded query is a
subsequence of the case-folded candidate. -/
theorem subseqMatch_iff_sublist :
    ∀ (cs qs : List Char),
      subseqMatch qs cs = true ↔ List.Sublist (qs.map Char.toLower) (cs.map Char.toLower)
  | [], [] => by simp [subseqMatch]
  | [], q :: qs => by simp [subseqMatch]
  | c :: cs, [] => by simp [subseqMatch]
  | c :: cs, q :: qs => by
    by_cases hm : (q.toLower == c.toLower) = true
    · have he : q.toLower = c.toLower := eq_of_beq hm
      simp only [subseqMatch, hm, if_true]
      rw [List.map_cons, List.map_cons, he, List.cons_sublist_cons]
      exact subseqMatch_iff_sublist cs qs
    · have hne : q.toLower ≠ c.toLower := by simpa using hm
      simp only [subseqMatch, hm, if_false, List.map_cons, Bool.false_eq_true]
      rw [subseqMatch_iff_sublist cs (q :: qs)]
      constructor
      · intro hs
        rw [List.map_cons] at hs
        exact hs.cons _
      · intro hs
        rcases List.cons_sublist_cons'.mp hs with hs' | ⟨he, _⟩
        · rw [List.map_cons]; exact hs'
        · exact absurd he hne

/-- `Match` verdict characterisation: the `Match` field is `true` exactly when
the case-folded query is an in-order subsequence of the case-folded
candidate. -/
theorem Match_true_iff (str query : String) (o : SortOptions) :
    (Match str query o).Match = true ↔
      List.Sublist (query.toList.map Char.toLower) (str.toList.map Char.toLower) := by
  have h0 : (initState).queryIdx ≤ query.toList.length := Nat.zero_le _
  have hbr := foldl_queryIdx_iff o query.toList str.toList initState h0
  simp only [Match, beq_iff_eq]
  rw [show initState.queryIdx = 0 from rfl, List.drop_zero] at hbr
  rw [hbr, subseqMatch_iff_sublist]

/-! ## The empty query -/

theorem matchStep_empty_query (o : SortOptions) (st : MatchState) (c : Char)
    (h : st.bestLetter = none) :
    (matchStep o [] st c).bestLetter = none ∧
      (matchStep o [] st c).score = st.score + o.UnmatchedLetterPenalty := by
  have hn : nextMatchB [] st c = false := by simp [nextMatchB]
  have hr : rematchB st c = false := by simp [rematchB, h]
  simp [matchStep, hn, hr, h]

theorem foldl_empty_query (o : SortOptions) :
    ∀ (cs : List Char) (st : MatchState), st.bestLetter = none →
      (cs.foldl (matchStep o []) st).bestLetter = none ∧
        (cs.foldl (matchStep o []) st).score =
          st.score + (cs.length : Rat) * o.UnmatchedLetterPenalty
  | [], st, h => by simp [h]
  | c :: cs, st, h => by
    obtain ⟨hb, hs⟩ := matchStep_empty_query o st c h
    obtain ⟨ihb, ihs⟩ := foldl_empty_query o cs (matchStep o [] st c) hb
    refine ⟨by simpa using ihb, ?_⟩
    rw [List.foldl_cons] at *
    rw [ihs, hs]
    simp only [List.length_cons]
    push_cast
    ring

/-! ## Claim theorems about `Match` -/

/-- C2: for every candidate, query and options, the `Match` field of the
result is `true` if and only if every character of the query occurs,
case-insensitively and in query order, as a subsequence of the candidate;
in particular `"ac"` matches `"abc"` and `"ca"` does not, for every
`SortOptions`. -/
theorem match_verdict_iff_subsequence :
    (∀ (str query : String) (o : SortOptions),
      (Match str query o).Match = true ↔
        List.Sublist (query.toList.map Char.toLower) (str.toList.map Char.toLower)) ∧
    (∀ o : SortOptions, (Match "abc" "ac" o).Match = true) ∧
    (∀ o : SortOptions, (Match "abc" "ca" o).Match = false) := by
  refine ⟨Match_true_iff, ?_, ?_⟩
  · intro o
    exact (Match_true_iff "abc" "ac" o).mpr (by decide)
  · intro o
    have h := Match_true_iff "abc" "ca" o
    rcases hb : (Match "abc" "ca" o).Match with _ | _
    · rfl
    · exact absurd (h.mp hb) (by decide)

/-- C4: every string matches itself as a query, for every `SortOptions`. -/
theorem match_self (s : String) (o : SortOptions) : (Match s s o).Match = true :=
  (Match_true_iff s s o).mpr (List.Sublist.refl _)

/-- C6: the empty query matches every candidate, for every `SortOptions`. -/
theorem match_empty_query (s : String) (o : SortOptions) :
    (Match s "" o).Match = true :=
  (Match_true_iff s "" o).mpr (by simp)

/-- C7: `Match` is a total function: for every candidate, query and options it
returns a `Result`, whose `Query` field is the query and whose `SortKey` field
is the candidate (totality is by construction in the embedding: the scan is a
structurally terminating fold with no failure cases). -/
theorem match_total (str query : String) (o : SortOptions) :
    ∃ r : Result, Match str query o = r ∧ r.Query = query ∧ r.SortKey = str :=
  ⟨Match str query o, rfl, rfl, rfl⟩

/-- C9: for every string and options, the empty-query score is exactly the
number of Unicode code points of the candidate times the unmatched-letter
penalty (each scanned rune takes the no-match branch exactly once). -/
theorem match_empty_query_score (s : String) (o : SortOptions) :
    (Match s "" o).Score = (s.toList.length : Rat) * o.UnmatchedLetterPenalty := by
  obtain ⟨hb, hs⟩ := foldl_empty_query o s.toList initState rfl
  have hq : "".toList = ([] : List Char) := rfl
  simp only [Match, hq, hb, hs]
  simp [initState]

/-! ## The ranking orchestrator (`Sorter`)

The source `Sorter` holds a `Sortable` collection (`sort.Interface` plus a
per-index sort key) and a parallel slice of `Result`s.  We model the
collection as a list of elements together with an element-wise sort-key
function and an element-wise `Less` (the Go interface reads both through the
index, and swaps move the elements under the indices).  `Sorter.Sort` fills
the results and calls Go `sort.Sort(s)`, which reorders `results` and `Data`
jointly through `Sorter.Swap` (every swap exchanges both slices at the same
pair of indices) under the comparator `Sorter.Less`.  A joint reordering
through such swaps is exactly a permutation of the list of
(result, element) pairs, so the model sorts the pair list; Go `sort.Sort` is
an unspecified comparison sort whose contract is the comparator-sortedness of
the output, modelled here by insertion sort. -/
structure Sorter (α : Type) where
  Data : List α
  SortKeyFn : α → String
  LessFn : α → α → Bool
  Options : SortOptions

/-- Source `Sorter.Less` lifted to (result, element) pairs: on score equality
fall back to the collection's own comparator, otherwise reverse-compare
scores (higher score sorts first). -/
def Sorter.lessPair {α : Type} (s : Sorter α) (x y : Result × α) : Bool :=
  if x.1.Score = y.1.Score then s.LessFn x.2 y.2
  else decide (y.1.Score < x.1.Score)

/-- Source `Sorter.Sort`: score every element against the query into the
results buffer, then sort results and collection jointly by `Sorter.Less`. -/
def Sorter.Sort {α : Type} (s : Sorter α) (query : String) : List (Result × α) :=
  List.insertionSort (fun x y => ¬ s.lessPair y x = true)
    (s.Data.map fun x => (Match (s.SortKeyFn x) query s.Options, x))

theorem lessPair_false_score {α : Type} (s : Sorter α) {x y : Result × α}
    (h : ¬ s.lessPair y x = true) : y.1.Score ≤ x.1.Score := by
  by_cases he : y.1.Score = x.1.Score
  · exact le_of_eq he
  · rw [Sorter.lessPair, if_neg he, decide_eq_true_eq] at h
    exact le_of_not_lt h

theorem lessPair_false_tie {α : Type} (s : Sorter α) {x y : Result × α}
    (h : ¬ s.lessPair y x = true) (he : y.1.Score = x.1.Score) :
    s.LessFn y.2 x.2 = false := by
  rw [Sorter.lessPair, if_pos he] at h
  exact Bool.eq_false_iff.mpr h

/-- C1: after `Sorter.Sort`, the (result, element) pairs — the results buffer
and the identically permuted collection — are in non-increasing score order,
and any two pairs with exactly equal scores are ordered consistently with the
collection's own comparator `LessFn`; this holds for every collection whose
`Less` satisfies the `sort.Interface` contract (asymmetric, with transitive
negation), every query, and every `SortOptions`. -/
theorem sorter_sort_ordered {α : Type} (s : Sorter α) (query : String)
    (hasym : ∀ a b, s.LessFn a b = true → s.LessFn b a = false)
    (hnegtr : ∀ a b c, s.LessFn a b = false → s.LessFn b c = false →
      s.LessFn a c = false) :
    (s.Sort query).Pairwise (fun x y =>
      y.1.Score ≤ x.1.Score ∧
        (x.1.Score = y.1.Score → s.LessFn y.2 x.2 = false)) := by
  have htot : ∀ x y : Result × α,
      ¬ s.lessPair y x = true ∨ ¬ s.lessPair x y = true := by
    intro x y
    by_contra hc
    push_neg at hc
    obtain ⟨h1, h2⟩ := hc
    by_cases he : y.1.Score = x.1.Score
    · rw [Sorter.lessPair, if_pos he] at h1
      rw [Sorter.lessPair, if_pos he.symm] at h2
      exact absurd h1 (by rw [hasym _ _ h2]; exact Bool.false_ne_true)
    · rw [Sorter.lessPair, if_neg he, decide_eq_true_eq] at h1
      rw [Sorter.lessPair, if_neg (Ne.symm he), decide_eq_true_eq] at h2
      exact absurd h1 (lt_asymm h2)
  have htrans : ∀ x y z : Result × α,
      ¬ s.lessPair y x = true → ¬ s.lessPair z y = true →
        ¬ s.lessPair z x = true := by
    intro x y z h1 h2 hc
    have hyx := lessPair_false_score s h1
    have hzy := lessPair_false_score s h2
    by_cases he : z.1.Score = x.1.Score
    · rw [Sorter.lessPair, if_pos he] at hc
      have he2 : y.1.Score = x.1.Score := le_antisymm hyx (he ▸ hzy)
      have hf1 := lessPair_false_tie s h1 he2
      have hf2 := lessPair_false_tie s h2 (he.trans he2.symm)
      rw [hnegtr _ _ _ hf2 hf1] at hc
      exact Bool.false_ne_true hc
    · rw [Sorter.lessPair, if_neg he, decide_eq_true_eq] at hc
      exact absurd hc (not_lt_of_le (le_trans hzy hyx))
  letI : IsTotal (Result × α) (fun x y => ¬ s.lessPair y x = true) := ⟨htot⟩
  letI : IsTrans (Result × α) (fun x y => ¬ s.lessPair y x = true) :=
    ⟨fun x y z h1 h2 => htrans x y z h1 h2⟩
  have hs := List.sorted_insertionSort (fun x y => ¬ s.lessPair y x = true)
    (s.Data.map fun x => (Match (s.SortKeyFn x) query s.Options, x))
  have hp : (s.Sort query).Pairwise (fun x y => ¬ s.lessPair y x = true) := hs
  refine hp.imp ?_
  intro x y hxy
  refine ⟨lessPair_false_score s hxy, ?_⟩
  intro he
  exact lessPair_false_tie s hxy he.symm

/-- C8: `Sorter.Sort` keeps the results buffer and the collection
index-aligned: at every index of the returned (result, element) pairing, the
result's `SortKey` is exactly the sort key of the element now stored at that
same index (the joint `Swap` moves both together). -/
theorem sorter_sort_aligned {α : Type} (s : Sorter α) (query : String) :
    ∀ (i : Nat) (r : Result) (x : α), (s.Sort query).get? i = some (r, x) →
      r.SortKey = s.SortKeyFn x := by
  intro i r x hget
  have hp : (r, x) ∈ s.Sort query := by
    exact List.get?_mem hget
  have hperm := List.perm_insertionSort (fun x y => ¬ s.lessPair y x = true)
    (s.Data.map fun x => (Match (s.SortKeyFn x) query s.Options, x))
  have hmem : (r, x) ∈ s.Data.map
      (fun x => (Match (s.SortKeyFn x) query s.Options, x)) :=
    hperm.mem_iff.mp hp
  rcases List.mem_map.mp hmem with ⟨z, _, hz⟩
  have hr : Match (s.SortKeyFn z) query s.Options = r := congrArg Prod.fst hz
  have hx : z = x := congrArg Prod.snd hz
  rw [← hr, ← hx]
  rfl

/-! ## Concrete evaluations -/

theorem eval_GitHub : Match "GitHub" "gh" NewSortOptions =
    { Match := true, Query := "gh", Score := 16, SortKey := "GitHub" } := by
  have s1 : matchStep NewSortOptions "gh".toList initState 'G' =
      ⟨1, 1, 0, some 'G', 10, true, false, false⟩ := by
    simp +decide [matchStep, nextMatchB, rematchB, leadPenalty, initState, NewSortOptions,
      DefaultAdjacencyBonus, DefaultSeparatorBonus, DefaultCamelBonus,
      DefaultLeadingLetterPenalty, DefaultMaxLeadingLetterPenalty,
      DefaultUnmatchedLetterPenalty]
    all_goals norm_num
  have s2 : matchStep NewSortOptions "gh".toList ⟨1, 1, 0, some 'G', 10, true, false, false⟩ 'i' =
      ⟨1, 2, -1, some 'G', 10, false, true, false⟩ := by
    simp +decide [matchStep, nextMatchB, rematchB, leadPenalty, NewSortOptions,
      DefaultAdjacencyBonus, DefaultSeparatorBonus, DefaultCamelBonus,
      DefaultLeadingLetterPenalty, DefaultMaxLeadingLetterPenalty,
      DefaultUnmatchedLetterPenalty]
    all_goals norm_num
  have s3 : matchStep NewSortOptions "gh".toList ⟨1, 2, -1, some 'G', 10, false, true, false⟩ 't' =
      ⟨1, 3, -2, some 'G', 10, false, true, false⟩ := by
    simp +decide [matchStep, nextMatchB, rematchB, leadPenalty, NewSortOptions,
      DefaultAdjacencyBonus, DefaultSeparatorBonus, DefaultCamelBonus,
      DefaultLeadingLetterPenalty, DefaultMaxLeadingLetterPenalty,
      DefaultUnmatchedLetterPenalty]
    all_goals norm_num
  have s4 : matchStep NewSortOptions "gh".toList ⟨1, 3, -2, some 'G', 10, false, true, false⟩ 'H' =
      ⟨2, 4, 8, some 'H', 10, true, false, false⟩ := by
    simp +decide [matchStep, nextMatchB, rematchB, leadPenalty, NewSortOptions,
      DefaultAdjacencyBonus, DefaultSeparatorBonus, DefaultCamelBonus,
      DefaultLeadingLetterPenalty, DefaultMaxLeadingLetterPenalty,
      DefaultUnmatchedLetterPenalty]
    all_goals norm_num
  have s5 : matchStep NewSortOptions "gh".toList ⟨2, 4, 8, some 'H', 10, true, false, false⟩ 'u' =
      ⟨2, 5, 7, some 'H', 10, false, true, false⟩ := by
    simp +decide [matchStep, nextMatchB, rematchB, leadPenalty, NewSortOptions,
      DefaultAdjacencyBonus, DefaultSeparatorBonus, DefaultCamelBonus,
      DefaultLeadingLetterPenalty, DefaultMaxLeadingLetterPenalty,
      DefaultUnmatchedLetterPenalty]
    all_goals norm_num
  have s6 : matchStep NewSortOptions "gh".toList ⟨2, 5, 7, some 'H', 10, false, true, false⟩ 'b' =
      ⟨2, 6, 6, some 'H', 10, false, true, false⟩ := by
    simp +decide [matchStep, nextMatchB, rematchB, leadPenalty, NewSortOptions,
      DefaultAdjacencyBonus, DefaultSeparatorBonus, DefaultCamelBonus,
      DefaultLeadingLetterPenalty, DefaultMaxLeadingLetterPenalty,
      DefaultUnmatchedLetterPenalty]
    all_goals norm_num
  have hfold : "GitHub".toList.foldl (matchStep NewSortOptions "gh".toList) initState =
      ⟨2, 6, 6, some 'H', 10, false, true, false⟩ := by
    rw [show "GitHub".toList = ['G', 'i', 't', 'H', 'u', 'b'] from rfl]
    rw [List.foldl_cons, s1, List.foldl_cons, s2, List.foldl_cons, s3,
      List.foldl_cons, s4, List.foldl_cons, s5, List.foldl_cons, s6, List.foldl_nil]
  simp only [Match, hfold]
  norm_num

theorem eval_github : Match "github" "gh" NewSortOptions =
    { Match := true, Query := "gh", Score := 6, SortKey := "github" } := by
  have s1 : matchStep NewSortOptions "gh".toList initState 'g' =
      ⟨1, 1, 0, some 'g', 10, true, true, false⟩ := by
    simp +decide [matchStep, nextMatchB, rematchB, leadPenalty, initState, NewSortOptions,
      DefaultAdjacencyBonus, DefaultSeparatorBonus, DefaultCamelBonus,
      DefaultLeadingLetterPenalty, DefaultMaxLeadingLetterPenalty,
      DefaultUnmatchedLetterPenalty]
    all_goals norm_num
  have s2 : matchStep NewSortOptions "gh".toList ⟨1, 1, 0, some 'g', 10, true, true, false⟩ 'i' =
      ⟨1, 2, -1, some 'g', 10, false, true, false⟩ := by
    simp +decide [matchStep, nextMatchB, rematchB, leadPenalty, NewSortOptions,
      DefaultAdjacencyBonus, DefaultSeparatorBonus, DefaultCamelBonus,
      DefaultLeadingLetterPenalty, DefaultMaxLeadingLetterPenalty,
      DefaultUnmatchedLetterPenalty]
    all_goals norm_num
  have s3 : matchStep NewSortOptions "gh".toList ⟨1, 2, -1, some 'g', 10, false, true, false⟩ 't' =
      ⟨1, 3, -2, some 'g', 10, false, true, false⟩ := by
    simp +decide [matchStep, nextMatchB, rematchB, leadPenalty, NewSortOptions,
      DefaultAdjacencyBonus, DefaultSeparatorBonus, DefaultCamelBonus,
      DefaultLeadingLetterPenalty, DefaultMaxLeadingLetterPenalty,
      DefaultUnmatchedLetterPenalty]
    all_goals norm_num
  have s4 : matchStep NewSortOptions "gh".toList ⟨1, 3, -2, some 'g', 10, false, true, false⟩ 'h' =
      ⟨2, 4, 8, some 'h', 0, true, true, false⟩ := by
    simp +decide [matchStep, nextMatchB, rematchB, leadPenalty, NewSortOptions,
      DefaultAdjacencyBonus, DefaultSeparatorBonus, DefaultCamelBonus,
      DefaultLeadingLetterPenalty, DefaultMaxLeadingLetterPenalty,
      DefaultUnmatchedLetterPenalty]
    all_goals norm_num
  have s5 : matchStep NewSortOptions "gh".toList ⟨2, 4, 8, some 'h', 0, true, true, false⟩ 'u' =
      ⟨2, 5, 7, some 'h', 0, false, true, false⟩ := by
    simp +decide [matchStep, nextMatchB, rematchB, leadPenalty, NewSortOptions,
      DefaultAdjacencyBonus, DefaultSeparatorBonus, DefaultCamelBonus,
      DefaultLeadingLetterPenalty, DefaultMaxLeadingLetterPenalty,
      DefaultUnmatchedLetterPenalty]
    all_goals norm_num
  have s6 : matchStep NewSortOptions "gh".toList ⟨2, 5, 7, some 'h', 0, false, true, false⟩ 'b' =
      ⟨2, 6, 6, some 'h', 0, false, true, false⟩ := by
    simp +decide [matchStep, nextMatchB, rematchB, leadPenalty, NewSortOptions,
      DefaultAdjacencyBonus, DefaultSeparatorBonus, DefaultCamelBonus,
      DefaultLeadingLetterPenalty, DefaultMaxLeadingLetterPenalty,
      DefaultUnmatchedLetterPenalty]
    all_goals norm_num
  have hfold : "github".toList.foldl (matchStep NewSortOptions "gh".toList) initState =
      ⟨2, 6, 6, some 'h', 0, false, true, false⟩ := by
    rw [show "github".toList = ['g', 'i', 't', 'h', 'u', 'b'] from rfl]
    rw [List.foldl_cons, s1, List.foldl_cons, s2, List.foldl_cons, s3,
      List.foldl_cons, s4, List.foldl_cons, s5, List.foldl_cons, s6, List.foldl_nil]
  simp only [Match, hfold]
  norm_num

/-- C5: with the default options, `"GitHub"` scores strictly higher against
query `"gh"` than `"github"` does: the camel-case bonus requires a lowercase
previous character, an uppercase current character, and a character with
distinct cases, so only the case boundary in `"GitHub"` earns it. -/
theorem camel_case_scores_higher :
    (Match "github" "gh" NewSortOptions).Score <
      (Match "GitHub" "gh" NewSortOptions).Score := by
  rw [eval_GitHub, eval_github]
  norm_num

/-- A tiny concrete collection for exercising `Sorter`: elements are `Bool`,
`true` has sort key `"a"`, `false` has sort key `"b"`, and the natural order
puts `false` before `true`. -/
def boolSorter : Sorter Bool :=
  { Data := [true, false]
    SortKeyFn := fun b => cond b "a" "b"
    LessFn := fun a b => !a && b
    Options := NewSortOptions }

theorem eval_match_a_a : Match "a" "a" NewSortOptions =
    { Match := true, Query := "a", Score := 10, SortKey := "a" } := by
  have s1 : matchStep NewSortOptions ['a'] initState 'a' =
      ⟨1, 1, 0, some 'a', 10, true, true, false⟩ := by
    simp +decide [matchStep, nextMatchB, rematchB, leadPenalty, initState, NewSortOptions,
      DefaultAdjacencyBonus, DefaultSeparatorBonus, DefaultCamelBonus,
      DefaultLeadingLetterPenalty, DefaultMaxLeadingLetterPenalty,
      DefaultUnmatchedLetterPenalty]
    all_goals norm_num
  have hfold : "a".toList.foldl (matchStep NewSortOptions "a".toList) initState =
      ⟨1, 1, 0, some 'a', 10, true, true, false⟩ := by
    rw [show "a".toList = ['a'] from rfl, List.foldl_cons, s1, List.foldl_nil]
  simp only [Match, hfold]
  norm_num

theorem eval_match_b_a : Match "b" "a" NewSortOptions =
    { Match := false, Query := "a", Score := -1, SortKey := "b" } := by
  have s1 : matchStep NewSortOptions "a".toList initState 'b' =
      ⟨0, 1, -1, none, 0, false, true, false⟩ := by
    simp +decide [matchStep, nextMatchB, rematchB, leadPenalty, initState, NewSortOptions,
      DefaultAdjacencyBonus, DefaultSeparatorBonus, DefaultCamelBonus,
      DefaultLeadingLetterPenalty, DefaultMaxLeadingLetterPenalty,
      DefaultUnmatchedLetterPenalty]
    all_goals norm_num
  have hfold : "b".toList.foldl (matchStep NewSortOptions "a".toList) initState =
      ⟨0, 1, -1, none, 0, false, true, false⟩ := by
    rw [show "b".toList = ['b'] from rfl, List.foldl_cons, s1, List.foldl_nil]
  simp only [Match, hfold]
  norm_num

theorem eval_boolSorter_sort : boolSorter.Sort "a" =
    [({ Match := true, Query := "a", Score := 10, SortKey := "a" }, true),
     ({ Match := false, Query := "a", Score := -1, SortKey := "b" }, false)] := by
  have hmap : boolSorter.Data.map
      (fun x => (Match (boolSorter.SortKeyFn x) "a" boolSorter.Options, x)) =
      [({ Match := true, Query := "a", Score := 10, SortKey := "a" }, true),
       ({ Match := false, Query := "a", Score := -1, SortKey := "b" }, false)] := by
    show [(Match "a" "a" NewSortOptions, true), (Match "b" "a" NewSortOptions, false)] = _
    rw [eval_match_a_a, eval_match_b_a]
  rw [Sorter.Sort, hmap]
  norm_num [List.insertionSort, List.orderedInsert, Sorter.lessPair]

/-- C1 witness: the tiny collection sorted against query `"a"` satisfies the
claim's ordering property, with hypotheses discharged at the concrete
comparator. -/
theorem sorter_sort_ordered_witness :
    (boolSorter.Sort "a").Pairwise (fun x y =>
      y.1.Score ≤ x.1.Score ∧
        (x.1.Score = y.1.Score → boolSorter.LessFn y.2 x.2 = false)) :=
  sorter_sort_ordered boolSorter "a" (by decide) (by decide)

/-- C8 witness: at index 0 of the sorted output, the result's `SortKey` is
the sort key of the element at index 0. -/
theorem sorter_sort_aligned_witness :
    (boolSorter.Sort "a").get? 0 =
        some ({ Match := true, Query := "a", Score := 10, SortKey := "a" }, true) ∧
      ({ Match := true, Query := "a", Score := 10, SortKey := "a" } : Result).SortKey =
        boolSorter.SortKeyFn true := by
  have hget : (boolSorter.Sort "a").get? 0 =
      some ({ Match := true, Query := "a", Score := 10, SortKey := "a" }, true) := by
    rw [eval_boolSorter_sort]
    rfl
  exact ⟨hget, sorter_sort_aligned boolSorter "a" 0 _ _ hget⟩

/-! ## Instrumentation of the leading-letter penalty

To reason about *where* the leading-letter penalty is applied we instrument
the scan: every execution of the match branch (`nextMatch || rematch`)
produces one `LeadEvent` recording the string position, the query cursor at
entry, and the leading-letter penalty added to the running score at that step
(zero when the cursor was not 0, because the source only applies the penalty
under `queryIdx == 0`).  The instrumented step changes nothing else, and a
variant `matchStepNL` with the penalty removed is used to show the penalty
amounts are exactly the difference in the final score. -/
structure LeadEvent where
  pos : Nat
  qi : Nat
  amount : Rat
deriving Repr, DecidableEq

/-- Events produced by one iteration of the scan on character `c`. -/
def eventsOf (o : SortOptions) (uQuery : List Char) (st : MatchState)
    (c : Char) : List LeadEvent :=
  if nextMatchB uQuery st c || rematchB st c then
    [{ pos := st.strIdx, qi := st.queryIdx,
       amount := if st.queryIdx == 0 then leadPenalty o st.strIdx else 0 }]
  else []

/-- The scan step paired with event recording. -/
def matchStepP (o : SortOptions) (uQuery : List Char)
    (p : MatchState × List LeadEvent) (c : Char) : MatchState × List LeadEvent :=
  (matchStep o uQuery p.1 c, p.2 ++ eventsOf o uQuery p.1 c)

/-- Events produced by scanning `cs` starting from state `st`. -/
def evsFrom (o : SortOptions) (uQuery : List Char) (st : MatchState)
    (cs : List Char) : List LeadEvent :=
  (cs.foldl (matchStepP o uQuery) (st, [])).2

/-- All leading-letter-penalty events of `Match str query o`. -/
def MatchEvents (str query : String) (o : SortOptions) : List LeadEvent :=
  evsFrom o query.toList initState str.toList

/-- The scan step with the leading-letter penalty deleted (the one difference
from `matchStep`: `score1 := score0`). -/
def matchStepNL (o : SortOptions) (uQuery : List Char) (st : MatchState)
    (strChar : Char) : MatchState :=
  let strLower := strChar.toLower
  let strUpper := strChar.toUpper
  let nextMatch := nextMatchB uQuery st strChar
  let rematch := rematchB st strChar
  let advanced := nextMatch && st.bestLetter.isSome
  let queryRepeat := st.bestLetter.isSome &&
    (st.bestLetter.map Char.toLower == uQuery[st.queryIdx]?.map Char.toLower)
  let score0 := if advanced || queryRepeat then st.score + st.bestLetterScore else st.score
  let bestLetter0 := if advanced || queryRepeat then (none : Option Char) else st.bestLetter
  let bestScore0 := if advanced || queryRepeat then (0 : Rat) else st.bestLetterScore
  let prevLower1 := strChar == strLower && strLower != strUpper
  let prevSep1 := strChar == '_' || strChar == ' '
  if nextMatch || rematch then
    let score1 := score0
    let newScore : Rat :=
      (if st.prevMatched then o.AdjacencyBonus else 0) +
      (if st.prevSeparator then o.SeparatorBonus else 0) +
      (if st.prevLower && strChar == strUpper && strLower != strUpper then o.CamelBonus else 0)
    let queryIdx1 := if nextMatch then st.queryIdx + 1 else st.queryIdx
    if newScore ≥ bestScore0 then
      { queryIdx := queryIdx1, strIdx := st.strIdx + 1,
        score := if bestLetter0.isSome then score1 + o.UnmatchedLetterPenalty else score1,
        bestLetter := some strChar, bestLetterScore := newScore,
        prevMatched := true, prevLower := prevLower1, prevSeparator := prevSep1 }
    else
      { queryIdx := queryIdx1, strIdx := st.strIdx + 1, score := score1,
        bestLetter := bestLetter0, bestLetterScore := bestScore0,
        prevMatched := true, prevLower := prevLower1, prevSeparator := prevSep1 }
  else
    { queryIdx := st.queryIdx, strIdx := st.strIdx + 1,
      score := score0 + o.UnmatchedLetterPenalty,
      bestLetter := bestLetter0, bestLetterScore := bestScore0,
      prevMatched := false, prevLower := prevLower1, prevSeparator := prevSep1 }

/-- The final score of the scan with the leading-letter penalty deleted. -/
def MatchScoreNL (str query : String) (o : SortOptions) : Rat :=
  let final := str.toList.foldl (matchStepNL o query.toList) initState
  if final.bestLetter.isSome then final.score + final.bestLetterScore else final.score

/-! Named sub-expressions of the scan step, for compositional reasoning.
`matchStep_eq`/`matchStepNL_eq` below restate the steps through them by
`rfl`, so they are definitionally the source expressions. -/

/-- `advanced || queryRepeat` of the scan step. -/
def advQRB (uQuery : List Char) (st : MatchState) (c : Char) : Bool :=
  (nextMatchB uQuery st c && st.bestLetter.isSome) ||
    (st.bestLetter.isSome &&
      (st.bestLetter.map Char.toLower == uQuery[st.queryIdx]?.map Char.toLower))

/-- The running score after the pending-letter commit. -/
def score0E (uQuery : List Char) (st : MatchState) (c : Char) : Rat :=
  if advQRB uQuery st c then st.score + st.bestLetterScore else st.score

/-- The pending letter after the commit. -/
def bestLetter0E (uQuery : List Char) (st : MatchState) (c : Char) : Option Char :=
  if advQRB uQuery st c then (none : Option Char) else st.bestLetter

/-- The pending score after the commit. -/
def bestScore0E (uQuery : List Char) (st : MatchState) (c : Char) : Rat :=
  if advQRB uQuery st c then (0 : Rat) else st.bestLetterScore

/-- The bonus increment `newScore` of the match branch. -/
def newScoreE (o : SortOptions) (st : MatchState) (c : Char) : Rat :=
  (if st.prevMatched then o.AdjacencyBonus else 0) +
    (if st.prevSeparator then o.SeparatorBonus else 0) +
    (if st.prevLower && c == c.toUpper && c.toLower != c.toUpper then o.CamelBonus else 0)

/-- The running score of the match branch after the leading-letter penalty. -/
def score1E (o : SortOptions) (uQuery : List Char) (st : MatchState) (c : Char) : Rat :=
  if st.queryIdx == 0 then score0E uQuery st c + leadPenalty o st.strIdx
  else score0E uQuery st c

theorem matchStep_eq (o : SortOptions) (uQuery : List Char) (st : MatchState)
    (c : Char) :
    matchStep o uQuery st c =
      if nextMatchB uQuery st c || rematchB st c then
        if newScoreE o st c ≥ bestScore0E uQuery st c then
          { queryIdx := if nextMatchB uQuery st c then st.queryIdx + 1 else st.queryIdx,
            strIdx := st.strIdx + 1,
            score := if (bestLetter0E uQuery st c).isSome then
                score1E o uQuery st c + o.UnmatchedLetterPenalty
              else score1E o uQuery st c,
            bestLetter := some c, bestLetterScore := newScoreE o st c,
            prevMatched := true,
            prevLower := c == c.toLower && c.toLower != c.toUpper,
            prevSeparator := c == '_' || c == ' ' }
        else
          { queryIdx := if nextMatchB uQuery st c then st.queryIdx + 1 else st.queryIdx,
            strIdx := st.strIdx + 1, score := score1E o uQuery st c,
            bestLetter := bestLetter0E uQuery st c,
            bestLetterScore := bestScore0E uQuery st c,
            prevMatched := true,
            prevLower := c == c.toLower && c.toLower != c.toUpper,
            prevSeparator := c == '_' || c == ' ' }
      else
        { queryIdx := st.queryIdx, strIdx := st.strIdx + 1,
          score := score0E uQuery st c + o.UnmatchedLetterPenalty,
          bestLetter := bestLetter0E uQuery st c,
          bestLetterScore := bestScore0E uQuery st c,
          prevMatched := false,
          prevLower := c == c.toLower && c.toLower != c.toUpper,
          prevSeparator := c == '_' || c == ' ' } := rfl

theorem matchStepNL_eq (o : SortOptions) (uQuery : List Char) (st : MatchState)
    (c : Char) :
    matchStepNL o uQuery st c =
      if nextMatchB uQuery st c || rematchB st c then
        if newScoreE o st c ≥ bestScore0E uQuery st c then
          { queryIdx := if nextMatchB uQuery st c then st.queryIdx + 1 else st.queryIdx,
            strIdx := st.strIdx + 1,
            score := if (bestLetter0E uQuery st c).isSome then
                score0E uQuery st c + o.UnmatchedLetterPenalty
              else score0E uQuery st c,
            bestLetter := some c, bestLetterScore := newScoreE o st c,
            prevMatched := true,
            prevLower := c == c.toLower && c.toLower != c.toUpper,
            prevSeparator := c == '_' || c == ' ' }
        else
          { queryIdx := if nextMatchB uQuery st c then st.queryIdx + 1 else st.queryIdx,
            strIdx := st.strIdx + 1, score := score0E uQuery st c,
            bestLetter := bestLetter0E uQuery st c,
            bestLetterScore := bestScore0E uQuery st c,
            prevMatched := true,
            prevLower := c == c.toLower && c.toLower != c.toUpper,
            prevSeparator := c == '_' || c == ' ' }
      else
        { queryIdx := st.queryIdx, strIdx := st.strIdx + 1,
          score := score0E uQuery st c + o.UnmatchedLetterPenalty,
          bestLetter := bestLetter0E uQuery st c,
          bestLetterScore := bestScore0E uQuery st c,
          prevMatched := false,
          prevLower := c == c.toLower && c.toLower != c.toUpper,
          prevSeparator := c == '_' || c == ' ' } := rfl

theorem nextMatchB_shift (uQuery : List Char) (st : MatchState) (c : Char)
    (x : Rat) : nextMatchB uQuery { st with score := x } c = nextMatchB uQuery st c := rfl

theorem rematchB_shift (st : MatchState) (c : Char) (x : Rat) :
    rematchB { st with score := x } c = rematchB st c := rfl

theorem advQRB_shift (uQuery : List Char) (st : MatchState) (c : Char) (x : Rat) :
    advQRB uQuery { st with score := x } c = advQRB uQuery st c := rfl

theorem newScoreE_shift (o : SortOptions) (st : MatchState) (c : Char) (x : Rat) :
    newScoreE o { st with score := x } c = newScoreE o st c := rfl

theorem bestLetter0E_shift (uQuery : List Char) (st : MatchState) (c : Char)
    (x : Rat) : bestLetter0E uQuery { st with score := x } c = bestLetter0E uQuery st c := by
  simp only [bestLetter0E, advQRB_shift]

theorem bestScore0E_shift (uQuery : List Char) (st : MatchState) (c : Char)
    (x : Rat) : bestScore0E uQuery { st with score := x } c = bestScore0E uQuery st c := by
  simp only [bestScore0E, advQRB_shift]

theorem score0E_shift (uQuery : List Char) (st : MatchState) (c : Char) (d : Rat) :
    score0E uQuery { st with score := st.score + d } c = score0E uQuery st c + d := by
  simp only [score0E, advQRB_shift]
  split_ifs <;> ring

theorem score1E_shift (o : SortOptions) (uQuery : List Char) (st : MatchState)
    (c : Char) (d : Rat) :
    score1E o uQuery { st with score := st.score + d } c = score1E o uQuery st c + d := by
  simp only [score1E, score0E_shift]
  split_ifs <;> ring

theorem matchStep_shift (o : SortOptions) (uQuery : List Char) (st : MatchState)
    (c : Char) (d : Rat) :
    matchStep o uQuery { st with score := st.score + d } c =
      { matchStep o uQuery st c with
          score := (matchStep o uQuery st c).score + d } := by
  rw [matchStep_eq, matchStep_eq, nextMatchB_shift, rematchB_shift, newScoreE_shift,
    bestScore0E_shift, bestLetter0E_shift, score1E_shift, score0E_shift]
  split_ifs <;> simp [MatchState.mk.injEq] <;>
    first
      | ring
      | (split_ifs <;> ring)

/-- The leading-letter penalty recorded at one step. -/
theorem matchStep_NLdelta (o : SortOptions) (uQuery : List Char) (st : MatchState)
    (c : Char) :
    matchStep o uQuery st c =
      { matchStepNL o uQuery st c with
          score := (matchStepNL o uQuery st c).score +
            ((eventsOf o uQuery st c).map LeadEvent.amount).sum } := by
  have hs1 : score1E o uQuery st c =
      score0E uQuery st c + (if st.queryIdx = 0 then leadPenalty o st.strIdx else 0) := by
    simp only [score1E, beq_iff_eq]
    split_ifs <;> ring
  rw [matchStep_eq, matchStepNL_eq, hs1]
  simp only [eventsOf, beq_iff_eq]
  split_ifs <;> simp [MatchState.mk.injEq] <;>
    first
      | ring
      | (split_ifs <;> ring)

theorem foldlP_fst (o : SortOptions) (uQuery : List Char) :
    ∀ (cs : List Char) (p : MatchState × List LeadEvent),
      (cs.foldl (matchStepP o uQuery) p).1 = cs.foldl (matchStep o uQuery) p.1
  | [], p => rfl
  | c :: cs, p => by
    rw [List.foldl_cons, List.foldl_cons, foldlP_fst o uQuery cs]
    rfl

theorem foldlP_events (o : SortOptions) (uQuery : List Char) :
    ∀ (cs : List Char) (st : MatchState) (evs : List LeadEvent),
      (cs.foldl (matchStepP o uQuery) (st, evs)).2 =
        evs ++ (cs.foldl (matchStepP o uQuery) (st, [])).2
  | [], st, evs => by simp
  | c :: cs, st, evs => by
    rw [List.foldl_cons, List.foldl_cons]
    show (cs.foldl (matchStepP o uQuery)
        (matchStep o uQuery st c, evs ++ eventsOf o uQuery st c)).2 =
      evs ++ (cs.foldl (matchStepP o uQuery)
        (matchStep o uQuery st c, [] ++ eventsOf o uQuery st c)).2
    rw [foldlP_events o uQuery cs _ (evs ++ eventsOf o uQuery st c),
      foldlP_events o uQuery cs (matchStep o uQuery st c) ([] ++ eventsOf o uQuery st c)]
    simp

theorem evsFrom_nil (o : SortOptions) (uQuery : List Char) (st : MatchState) :
    evsFrom o uQuery st [] = [] := rfl

theorem evsFrom_cons (o : SortOptions) (uQuery : List Char) (st : MatchState)
    (c : Char) (cs : List Char) :
    evsFrom o uQuery st (c :: cs) =
      eventsOf o uQuery st c ++ evsFrom o uQuery (matchStep o uQuery st c) cs := by
  show (cs.foldl (matchStepP o uQuery)
      (matchStep o uQuery st c, [] ++ eventsOf o uQuery st c)).2 = _
  rw [foldlP_events o uQuery cs (matchStep o uQuery st c) ([] ++ eventsOf o uQuery st c)]
  simp [evsFrom]

theorem eventsOf_shift (o : SortOptions) (uQuery : List Char) (st : MatchState)
    (c : Char) (x : Rat) :
    eventsOf o uQuery { st with score := x } c = eventsOf o uQuery st c := rfl

theorem evsFrom_shift (o : SortOptions) (uQuery : List Char) :
    ∀ (cs : List Char) (st : MatchState) (d : Rat),
      evsFrom o uQuery { st with score := st.score + d } cs = evsFrom o uQuery st cs
  | [], st, d => rfl
  | c :: cs, st, d => by
    rw [evsFrom_cons, evsFrom_cons, eventsOf_shift, matchStep_shift]
    rw [evsFrom_shift o uQuery cs (matchStep o uQuery st c) d]

theorem foldl_shift (o : SortOptions) (uQuery : List Char) :
    ∀ (cs : List Char) (st : MatchState) (d : Rat),
      cs.foldl (matchStep o uQuery) { st with score := st.score + d } =
        { cs.foldl (matchStep o uQuery) st with
            score := (cs.foldl (matchStep o uQuery) st).score + d }
  | [], st, d => rfl
  | c :: cs, st, d => by
    rw [List.foldl_cons, List.foldl_cons, matchStep_shift]
    exact foldl_shift o uQuery cs (matchStep o uQuery st c) d

/-- The full scan equals the penalty-free scan plus the recorded amounts,
added to the running score. -/
theorem foldl_decomp (o : SortOptions) (uQuery : List Char) :
    ∀ (cs : List Char) (st : MatchState),
      cs.foldl (matchStep o uQuery) st =
        { cs.foldl (matchStepNL o uQuery) st with
            score := (cs.foldl (matchStepNL o uQuery) st).score +
              ((evsFrom o uQuery st cs).map LeadEvent.amount).sum }
  | [], st => by simp [evsFrom_nil]
  | c :: cs, st => by
    rw [List.foldl_cons, List.foldl_cons]
    rw [show matchStep o uQuery st c =
        { matchStepNL o uQuery st c with
            score := (matchStepNL o uQuery st c).score +
              ((eventsOf o uQuery st c).map LeadEvent.amount).sum }
      from matchStep_NLdelta o uQuery st c]
    rw [foldl_shift]
    rw [foldl_decomp o uQuery cs (matchStepNL o uQuery st c)]
    have hev : evsFrom o uQuery st (c :: cs) =
        eventsOf o uQuery st c ++
          evsFrom o uQuery (matchStepNL o uQuery st c) cs := by
      rw [evsFrom_cons]
      congr 1
      rw [show matchStep o uQuery st c =
          { matchStepNL o uQuery st c with
              score := (matchStepNL o uQuery st c).score +
                ((eventsOf o uQuery st c).map LeadEvent.amount).sum }
        from matchStep_NLdelta o uQuery st c]
      exact evsFrom_shift o uQuery cs (matchStepNL o uQuery st c) _
    rw [hev]
    simp [MatchState.mk.injEq]
    ring

theorem matchStep_strIdx (o : SortOptions) (uQuery : List Char) (st : MatchState)
    (c : Char) : (matchStep o uQuery st c).strIdx = st.strIdx + 1 := by
  rw [matchStep_eq]
  split_ifs <;> rfl

theorem matchStep_queryIdx_mono (o : SortOptions) (uQuery : List Char)
    (st : MatchState) (c : Char) :
    st.queryIdx ≤ (matchStep o uQuery st c).queryIdx := by
  rw [matchStep_queryIdx]
  split <;> omega

/-- While the cursor is still 0, the pending slot is empty: the first commit
into the pending slot happens in the same iteration that advances the cursor
off 0. -/
theorem matchStep_inv (o : SortOptions) (uQuery : List Char) (st : MatchState)
    (c : Char) (h : st.queryIdx = 0 → st.bestLetter = none) :
    (matchStep o uQuery st c).queryIdx = 0 →
      (matchStep o uQuery st c).bestLetter = none := by
  by_cases hq0 : st.queryIdx = 0
  · have hbest := h hq0
    by_cases hn : nextMatchB uQuery st c = true
    · intro hq'
      rw [matchStep_queryIdx, hn] at hq'
      simp at hq'
    · intro _
      have hr : rematchB st c = false := by simp [rematchB, hbest]
      have hnf : nextMatchB uQuery st c = false := Bool.eq_false_iff.mpr hn
      have hbr : (nextMatchB uQuery st c || rematchB st c) = false := by
        simp [hnf, hr]
      rw [matchStep_eq, hbr]
      simp [bestLetter0E, hbest]
  · intro hq'
    have := matchStep_queryIdx_mono o uQuery st c
    omega

theorem evsFrom_qi_ge (o : SortOptions) (uQuery : List Char) :
    ∀ (cs : List Char) (st : MatchState), 1 ≤ st.queryIdx →
      ∀ e ∈ evsFrom o uQuery st cs, 1 ≤ e.qi
  | [], st, _, e, he => by simp [evsFrom_nil] at he
  | c :: cs, st, h1, e, he => by
    rw [evsFrom_cons] at he
    rcases List.mem_append.mp he with h | h
    · by_cases hbr : (nextMatchB uQuery st c || rematchB st c) = true
      · simp only [eventsOf, hbr, if_true, List.mem_singleton] at h
        rw [h]
        exact h1
      · simp [eventsOf, hbr] at h
    · exact evsFrom_qi_ge o uQuery cs (matchStep o uQuery st c)
        (le_trans h1 (matchStep_queryIdx_mono o uQuery st c)) e h

theorem evsFrom_amount (o : SortOptions) (uQuery : List Char) :
    ∀ (cs : List Char) (st : MatchState), ∀ e ∈ evsFrom o uQuery st cs,
      e.amount = if e.qi = 0 then leadPenalty o e.pos else 0
  | [], st, e, he => by simp [evsFrom_nil] at he
  | c :: cs, st, e, he => by
    rw [evsFrom_cons] at he
    rcases List.mem_append.mp he with h | h
    · by_cases hbr : (nextMatchB uQuery st c || rematchB st c) = true
      · simp only [eventsOf, hbr, if_true, List.mem_singleton] at h
        rw [h]
        simp [beq_iff_eq]
      · simp [eventsOf, hbr] at h
    · exact evsFrom_amount o uQuery cs (matchStep o uQuery st c) e h

theorem evsFrom_count (o : SortOptions) (uQuery : List Char) :
    ∀ (cs : List Char) (st : MatchState),
      (st.queryIdx = 0 → st.bestLetter = none) →
      ((evsFrom o uQuery st cs).filter (fun e => e.qi == 0)).length ≤ 1
  | [], st, _ => by simp [evsFrom_nil]
  | c :: cs, st, h => by
    rw [evsFrom_cons, List.filter_append, List.length_append]
    by_cases hq0 : st.queryIdx = 0
    · by_cases hn : nextMatchB uQuery st c = true
      · have hq' : 1 ≤ (matchStep o uQuery st c).queryIdx := by
          rw [matchStep_queryIdx, hn]
          simp
        have htail : (evsFrom o uQuery (matchStep o uQuery st c) cs).filter
            (fun e => e.qi == 0) = [] := by
          rw [List.filter_eq_nil_iff]
          intro e he
          have := evsFrom_qi_ge o uQuery cs _ hq' e he
          simp
          omega
        have hhead : ((eventsOf o uQuery st c).filter (fun e => e.qi == 0)).length ≤ 1 :=
          le_trans (List.length_filter_le _ _) (by
            by_cases hbr : (nextMatchB uQuery st c || rematchB st c) = true <;>
              simp [eventsOf, hbr])
        rw [htail]
        simpa using hhead
      · have hr : rematchB st c = false := by simp [rematchB, h hq0]
        have hnf : nextMatchB uQuery st c = false := Bool.eq_false_iff.mpr hn
        have hbr : (nextMatchB uQuery st c || rematchB st c) = false := by
          simp [hnf, hr]
        have hhead : eventsOf o uQuery st c = [] := by simp [eventsOf, hbr]
        rw [hhead]
        simpa using evsFrom_count o uQuery cs (matchStep o uQuery st c)
          (matchStep_inv o uQuery st c h)
    · have h1 : 1 ≤ st.queryIdx := Nat.one_le_iff_ne_zero.mpr hq0
      have htail : (evsFrom o uQuery (matchStep o uQuery st c) cs).filter
          (fun e => e.qi == 0) = [] := by
        rw [List.filter_eq_nil_iff]
        intro e he
        have := evsFrom_qi_ge o uQuery cs _
          (le_trans h1 (matchStep_queryIdx_mono o uQuery st c)) e he
        simp
        omega
      have hhead : (eventsOf o uQuery st c).filter (fun e => e.qi == 0) = [] := by
        rw [List.filter_eq_nil_iff]
        intro e he
        by_cases hbr : (nextMatchB uQuery st c || rematchB st c) = true
        · simp only [eventsOf, hbr, if_true, List.mem_singleton] at he
          rw [he]
          simp
          omega
        · simp [eventsOf, hbr] at he
      rw [htail, hhead]
      simp

/-- `str[j]` matches the first query character, case-insensitively (the
`nextMatch` condition as seen with the cursor at 0). -/
def matchesFirstB (uQuery str : List Char) (j : Nat) : Bool :=
  match str[j]?, uQuery[0]? with
  | some c, some q0 => q0.toLower == c.toLower
  | _, _ => false

theorem matchesFirstB_of_get {str : List Char} {j : Nat} {c : Char}
    (uQuery : List Char) (hget : str[j]? = some c) :
    matchesFirstB uQuery str j = (uQuery[0]?.map Char.toLower == some c.toLower) := by
  cases hq0 : uQuery[0]? with
  | none => simp [matchesFirstB, hget, hq0]
  | some q0 => simp [matchesFirstB, hget, hq0]

theorem nextMatchB_qi0 (uQuery : List Char) (st : MatchState) (c : Char)
    (hq0 : st.queryIdx = 0) :
    nextMatchB uQuery st c = (uQuery[0]?.map Char.toLower == some c.toLower) := by
  rw [nextMatchB, hq0]

/-- Any event recorded with the cursor at 0 sits at the *first* candidate
position whose character matches the first query character. -/
theorem evsFrom_qi0_first (o : SortOptions) (uQuery str : List Char) :
    ∀ (cs : List Char) (st : MatchState),
      cs = str.drop st.strIdx →
      (st.queryIdx = 0 → st.bestLetter = none) →
      (st.queryIdx = 0 → ∀ j < st.strIdx, matchesFirstB uQuery str j = false) →
      ∀ e ∈ evsFrom o uQuery st cs, e.qi = 0 →
        matchesFirstB uQuery str e.pos = true ∧
          ∀ j < e.pos, matchesFirstB uQuery str j = false
  | [], st, _, _, _, e, he => by simp [evsFrom_nil] at he
  | c :: cs, st, hcs, hinv, hpre, e, he => by
    have hget : str[st.strIdx]? = some c := by
      have h0 : (str.drop st.strIdx)[0]? = some c := by rw [← hcs]; simp
      rw [List.getElem?_drop] at h0
      simpa using h0
    have hcs' : cs = str.drop (st.strIdx + 1) := by
      have h1 : (str.drop st.strIdx).drop 1 = str.drop (st.strIdx + 1) := by
        rw [List.drop_drop]
      rw [← hcs] at h1
      simpa using h1
    intro hqi0
    rw [evsFrom_cons] at he
    rcases List.mem_append.mp he with h | h
    · by_cases hbr : (nextMatchB uQuery st c || rematchB st c) = true
      · simp only [eventsOf, hbr, if_true, List.mem_singleton] at h
        have hq0 : st.queryIdx = 0 := by rw [h] at hqi0; exact hqi0
        have hbest := hinv hq0
        have hr : rematchB st c = false := by simp [rematchB, hbest]
        have hn : nextMatchB uQuery st c = true := by
          rcases Bool.or_eq_true_iff.mp hbr with h' | h'
          · exact h'
          · rw [hr] at h'; cases h'
        have hpos : e.pos = st.strIdx := by rw [h]
        constructor
        · rw [hpos, matchesFirstB_of_get uQuery hget, ← nextMatchB_qi0 uQuery st c hq0]
          exact hn
        · intro j hj
          rw [hpos] at hj
          exact hpre hq0 j hj
      · simp [eventsOf, hbr] at h
    · refine evsFrom_qi0_first o uQuery str cs (matchStep o uQuery st c)
        (by rw [matchStep_strIdx]; exact hcs')
        (matchStep_inv o uQuery st c hinv) ?_ e h hqi0
      intro hq0' j hj
      rw [matchStep_strIdx] at hj
      have hq0 : st.queryIdx = 0 := by
        have := matchStep_queryIdx_mono o uQuery st c
        omega
      have hn : nextMatchB uQuery st c = false := by
        cases hx : nextMatchB uQuery st c
        · rfl
        · rw [matchStep_queryIdx, hx] at hq0'
          simp at hq0'
      rcases Nat.lt_or_ge j st.strIdx with hlt | hge
      · exact hpre hq0 j hlt
      · have hj' : j = st.strIdx := by omega
        rw [hj', matchesFirstB_of_get uQuery hget, ← nextMatchB_qi0 uQuery st c hq0]
        exact hn

theorem leadPenalty_eq_max (o : SortOptions) (k : Nat) :
    leadPenalty o k = max ((k : Rat) * o.LeadingLetterPenalty) o.MaxLeadingLetterPenalty := by
  rw [leadPenalty, max_def]

/-- C3: the leading-letter penalty is applied only at a match that occurs
while the query cursor is 0 — hence at most once per call, at the first
candidate position matching the first query character — and its amount is
that position times `LeadingLetterPenalty`, clamped to be no more negative
than `MaxLeadingLetterPenalty`; it goes into the running score (the final
score is the penalty-free score plus exactly the recorded amounts), not into
the pending increment. -/
theorem leading_penalty_once (str query : String) (o : SortOptions) :
    ((MatchEvents str query o).filter (fun e => e.qi == 0)).length ≤ 1 ∧
    (∀ e ∈ MatchEvents str query o, e.qi ≠ 0 → e.amount = 0) ∧
    (∀ e ∈ MatchEvents str query o, e.qi = 0 →
      e.amount = max ((e.pos : Rat) * o.LeadingLetterPenalty) o.MaxLeadingLetterPenalty ∧
      matchesFirstB query.toList str.toList e.pos = true ∧
      ∀ j < e.pos, matchesFirstB query.toList str.toList j = false) ∧
    (Match str query o).Score =
      MatchScoreNL str query o + ((MatchEvents str query o).map LeadEvent.amount).sum := by
  refine ⟨?_, ?_, ?_, ?_⟩
  · exact evsFrom_count o query.toList str.toList initState (fun _ => rfl)
  · intro e he hne
    have := evsFrom_amount o query.toList str.toList initState e he
    rw [this, if_neg hne]
  · intro e he hq0
    refine ⟨?_, ?_⟩
    · have := evsFrom_amount o query.toList str.toList initState e he
      rw [this, if_pos hq0, leadPenalty_eq_max]
    · exact evsFrom_qi0_first o query.toList str.toList str.toList initState
        (List.drop_zero _).symm (fun _ => rfl)
        (fun _ j hj => absurd hj (Nat.not_lt_zero j)) e he hq0
  · have hd := foldl_decomp o query.toList str.toList initState
    simp only [Match, MatchScoreNL, MatchEvents, hd]
    split_ifs <;> ring

theorem eval_events_xab : MatchEvents "xab" "ab" NewSortOptions =
    [{ pos := 1, qi := 0, amount := -3 }, { pos := 2, qi := 1, amount := 0 }] := by
  have t1 : matchStep NewSortOptions "ab".toList initState 'x' =
      ⟨0, 1, -1, none, 0, false, true, false⟩ := by
    simp +decide [matchStep, nextMatchB, rematchB, leadPenalty, initState, NewSortOptions,
      DefaultAdjacencyBonus, DefaultSeparatorBonus, DefaultCamelBonus,
      DefaultLeadingLetterPenalty, DefaultMaxLeadingLetterPenalty,
      DefaultUnmatchedLetterPenalty]
    all_goals norm_num
  have t2 : matchStep NewSortOptions "ab".toList ⟨0, 1, -1, none, 0, false, true, false⟩ 'a' =
      ⟨1, 2, -4, some 'a', 0, true, true, false⟩ := by
    simp +decide [matchStep, nextMatchB, rematchB, leadPenalty, NewSortOptions,
      DefaultAdjacencyBonus, DefaultSeparatorBonus, DefaultCamelBonus,
      DefaultLeadingLetterPenalty, DefaultMaxLeadingLetterPenalty,
      DefaultUnmatchedLetterPenalty]
    all_goals norm_num
  have e0 : eventsOf NewSortOptions "ab".toList initState 'x' = [] := by
    simp +decide [eventsOf, nextMatchB, rematchB, initState]
  have e1 : eventsOf NewSortOptions "ab".toList ⟨0, 1, -1, none, 0, false, true, false⟩ 'a' =
      [{ pos := 1, qi := 0, amount := -3 }] := by
    simp +decide [eventsOf, nextMatchB, rematchB, leadPenalty, NewSortOptions,
      DefaultLeadingLetterPenalty, DefaultMaxLeadingLetterPenalty]
    all_goals norm_num
  have e2 : eventsOf NewSortOptions "ab".toList ⟨1, 2, -4, some 'a', 0, true, true, false⟩ 'b' =
      [{ pos := 2, qi := 1, amount := 0 }] := by
    simp +decide [eventsOf, nextMatchB, rematchB]
  rw [MatchEvents, show ("xab".toList) = ['x', 'a', 'b'] from rfl]
  rw [evsFrom_cons, t1, evsFrom_cons, t2, evsFrom_cons, evsFrom_nil, e0, e1, e2]
  simp

/-- C3 witness: for candidate `"xab"` and query `"ab"` with the defaults, the
single cursor-0 event sits at position 1 (the first `a`), with amount
`max(1 × (−3), −9) = −3`. -/
theorem leading_penalty_once_witness :
    (({ pos := 1, qi := 0, amount := -3 } : LeadEvent) ∈
        MatchEvents "xab" "ab" NewSortOptions) ∧
      (({ pos := 1, qi := 0, amount := -3 } : LeadEvent).amount =
          max ((1 : Rat) * NewSortOptions.LeadingLetterPenalty)
            NewSortOptions.MaxLeadingLetterPenalty ∧
        matchesFirstB "ab".toList "xab".toList 1 = true ∧
        ∀ j < 1, matchesFirstB "ab".toList "xab".toList j = false) := by
  have hmem : ({ pos := 1, qi := 0, amount := -3 } : LeadEvent) ∈
      MatchEvents "xab" "ab" NewSortOptions := by
    rw [eval_events_xab]
    simp
  have h := (leading_penalty_once "xab" "ab" NewSortOptions).2.2.1
    { pos := 1, qi := 0, amount := -3 } hmem rfl
  exact ⟨hmem, by exact_mod_cast h⟩

/-! ## Buffer allocation and slice bounds (`NewSorter` / `Sorter.Sort`)

Go-level memory behaviour of the results buffer: `NewSorter` allocates
`make([]*Result, data.Len())` — a slice of `n` nil pointers, modelled as
`some (replicate n none)`; a nil slice is modelled as `none`.  The write loop
of `Sorter.Sort` assigns `s.results[i]` for `i < Data.Len()`; a Go slice
write at an index `≥ len` panics, modelled by an `Except Nat` error carrying
the offending index.  The sort phase touches only indices below `Data.Len()`,
all in bounds whenever the fill loop succeeded; it is the verified pair sort
of `Sorter.Sort` above, with buffer entries beyond `Data.Len()` (possible
only if the collection shrank) left untouched. -/

/-- A bounds-checked Go slice write: `l[i] = b`, or the panic index. -/
def sliceSet {β : Type} (l : List β) (i : Nat) (b : β) : Option (List β) :=
  if i < l.length then some (l.set i b) else none

/-- The write loop of `Sorter.Sort`: `for i, x := range data { results[i] = Match(...) }`,
with Go slice bounds checking. -/
def fillLoop {α : Type} (o : SortOptions) (key : α → String) (query : String) :
    List (Nat × α) → List (Option Result) → Except Nat (List (Option Result))
  | [], buf => .ok buf
  | (i, x) :: rest, buf =>
    match sliceSet buf i (some (Match (key x) query o)) with
    | none => .error i
    | some buf2 => fillLoop o key query rest buf2

/-- `Sorter` with its results buffer made explicit (`none` = nil slice). -/
structure SorterBuf (α : Type) where
  Data : List α
  SortKeyFn : α → String
  LessFn : α → α → Bool
  Options : SortOptions
  results : Option (List (Option Result))

/-- Source `NewSorter`: buffer allocated with length `data.Len()`. -/
def NewSorterBuf {α : Type} (data : List α) (key : α → String)
    (less : α → α → Bool) (opts : SortOptions) : SorterBuf α :=
  { Data := data, SortKeyFn := key, LessFn := less, Options := opts,
    results := some (List.replicate data.length none) }

/-- Source `Sorter.Sort` with explicit buffer and bounds checking: re-allocate
only if the buffer is nil, fill, then sort the first `Data.Len()` entries
jointly with the collection. -/
def SorterBuf.SortChecked {α : Type} (s : SorterBuf α) (query : String) :
    Except Nat (List (Option Result) × List α) :=
  let buf0 := match s.results with
    | none => List.replicate s.Data.length none
    | some r => r
  match fillLoop s.Options s.SortKeyFn query s.Data.enum buf0 with
  | .error i => .error i
  | .ok buf1 =>
    let m := s.Data.length
    let sorted := (Sorter.mk s.Data s.SortKeyFn s.LessFn s.Options).Sort query
    .ok (sorted.map (fun p => some p.1) ++ buf1.drop m, sorted.map Prod.snd)

/-- Source accessors `Result(i)` / `Match(i)` / `Score(i)`: they all read
`s.results[i]`; the read is in bounds exactly when this is `some`. -/
def SorterBuf.ResultAt {α : Type} (s : SorterBuf α) (i : Nat) :
    Option (Option Result) :=
  s.results.bind fun buf => buf[i]?

theorem fillLoop_ok {α : Type} (o : SortOptions) (key : α → String) (query : String) :
    ∀ (xs : List α) (k : Nat) (buf : List (Option Result)),
      k + xs.length ≤ buf.length →
      ∃ buf2, fillLoop o key query (List.enumFrom k xs) buf = .ok buf2 ∧
        buf2.length = buf.length
  | [], k, buf, _ => ⟨buf, rfl, rfl⟩
  | x :: xs, k, buf, h => by
    have hk : k < buf.length := by
      simp only [List.length_cons] at h
      omega
    have hset : sliceSet buf k (some (Match (key x) query o)) =
        some (buf.set k (some (Match (key x) query o))) := by
      rw [sliceSet, if_pos hk]
    obtain ⟨buf2, hok, hlen⟩ := fillLoop_ok o key query xs (k + 1)
      (buf.set k (some (Match (key x) query o)))
      (by simp only [List.length_set, List.length_cons] at *; omega)
    exact ⟨buf2, by rw [List.enumFrom, fillLoop, hset]; exact hok,
      by rw [hlen, List.length_set]⟩

theorem fillLoop_err {α : Type} (o : SortOptions) (key : α → String) (query : String) :
    ∀ (xs : List α) (k : Nat) (buf : List (Option Result)),
      k ≤ buf.length → buf.length < k + xs.length →
      fillLoop o key query (List.enumFrom k xs) buf = .error buf.length
  | [], k, buf, hle, hlt => by simp at hlt; omega
  | x :: xs, k, buf, hle, hlt => by
    rcases Nat.lt_or_ge k buf.length with hk | hk
    · have hset : sliceSet buf k (some (Match (key x) query o)) =
          some (buf.set k (some (Match (key x) query o))) := by
        rw [sliceSet, if_pos hk]
      have hrec := fillLoop_err o key query xs (k + 1)
        (buf.set k (some (Match (key x) query o)))
        (by rw [List.length_set]; omega)
        (by rw [List.length_set]; simp only [List.length_cons] at hlt; omega)
      rw [List.enumFrom, fillLoop, hset]
      show fillLoop o key query (List.enumFrom (k + 1) xs)
          (buf.set k (some (Match (key x) query o))) = Except.error buf.length
      rw [hrec, List.length_set]
    · have hkeq : k = buf.length := by omega
      have hset : sliceSet buf k (some (Match (key x) query o)) = none := by
        rw [sliceSet, if_neg (by omega)]
      rw [List.enumFrom, fillLoop, hset, hkeq]

theorem SortChecked_def {α : Type} (s : SorterBuf α) (query : String)
    (buf : List (Option Result)) (h : s.results = some buf) :
    s.SortChecked query =
      match fillLoop s.Options s.SortKeyFn query s.Data.enum buf with
      | .error i => .error i
      | .ok buf1 =>
        .ok ((((Sorter.mk s.Data s.SortKeyFn s.LessFn s.Options).Sort query).map
            (fun p => some p.1)) ++ buf1.drop s.Data.length,
          ((Sorter.mk s.Data s.SortKeyFn s.LessFn s.Options).Sort query).map Prod.snd) := by
  rw [SorterBuf.SortChecked, h]

/-- C10: the results buffer of `NewSorter` is allocated with length
`Data.Len()` and is non-nil from construction on; if the collection has grown
past that length when `Sort` runs, the write at index `n` (the old length) is
out of bounds; and if it has not grown, `Sort` succeeds with the buffer still
of length `n`, never resized, and every buffer access at `i < n` — in `Sort`
and in the accessors `Result(i)`, `Match(i)`, `Score(i)` — is in bounds. -/
theorem sorter_buffer_bounds {α : Type} (data : List α) (key : α → String)
    (less : α → α → Bool) (o : SortOptions) (query : String) :
    (∃ buf, (NewSorterBuf data key less o).results = some buf ∧
        buf.length = data.length) ∧
    (∀ data2 : List α, data.length < data2.length →
      SorterBuf.SortChecked { NewSorterBuf data key less o with Data := data2 } query =
        .error data.length) ∧
    (∀ data2 : List α, data2.length ≤ data.length →
      ∃ buf2 data3,
        SorterBuf.SortChecked { NewSorterBuf data key less o with Data := data2 } query =
          .ok (buf2, data3) ∧
        buf2.length = data.length ∧
        ∀ i < data.length,
          (SorterBuf.ResultAt
            { NewSorterBuf data key less o with Data := data2, results := some buf2 }
            i).isSome = true) := by
  refine ⟨⟨List.replicate data.length none, rfl, List.length_replicate _ _⟩, ?_, ?_⟩
  · intro data2 hgrow
    have herr := fillLoop_err o key query data2 0 (List.replicate data.length none)
      (Nat.zero_le _) (by rw [List.length_replicate]; omega)
    rw [List.length_replicate] at herr
    rw [SortChecked_def _ _ (List.replicate data.length none) rfl]
    rw [show data2.enum = List.enumFrom 0 data2 from rfl]
    show (match fillLoop o key query (List.enumFrom 0 data2)
        (List.replicate data.length none) with
      | (Except.error i) => (Except.error i :
          Except Nat (List (Option Result) × List α))
      | Except.ok buf1 =>
        Except.ok ((((Sorter.mk data2 key less o).Sort query).map
            (fun p : Result × α => some p.1)) ++ buf1.drop data2.length,
          ((Sorter.mk data2 key less o).Sort query).map Prod.snd)) =
      Except.error data.length
    rw [herr]
  · intro data2 hle
    obtain ⟨buf1, hok, hlen⟩ := fillLoop_ok o key query data2 0
      (List.replicate data.length none)
      (by rw [List.length_replicate]; omega)
    rw [List.length_replicate] at hlen
    have hslen : ((Sorter.mk data2 key less o).Sort query).length = data2.length := by
      rw [Sorter.Sort, List.length_insertionSort, List.length_map]
    refine ⟨((Sorter.mk data2 key less o).Sort query).map (fun p => some p.1) ++
        buf1.drop data2.length,
      ((Sorter.mk data2 key less o).Sort query).map Prod.snd, ?_, ?_, ?_⟩
    · rw [SortChecked_def _ _ (List.replicate data.length none) rfl]
      rw [show data2.enum = List.enumFrom 0 data2 from rfl]
      show (match fillLoop o key query (List.enumFrom 0 data2)
          (List.replicate data.length none) with
        | (Except.error i) => (Except.error i :
            Except Nat (List (Option Result) × List α))
        | Except.ok buf1 =>
          Except.ok ((((Sorter.mk data2 key less o).Sort query).map
              (fun p : Result × α => some p.1)) ++ buf1.drop data2.length,
            ((Sorter.mk data2 key less o).Sort query).map Prod.snd)) = _
      rw [hok]
    · rw [List.length_append, List.length_map, List.length_drop, hlen, hslen]
      omega
    · intro i hi
      have hlen2 : (((Sorter.mk data2 key less o).Sort query).map (fun p => some p.1) ++
          buf1.drop data2.length).length = data.length := by
        rw [List.length_append, List.length_map, List.length_drop, hlen, hslen]
        omega
      rw [SorterBuf.ResultAt]
      show (((Sorter.mk data2 key less o).Sort query).map (fun p => some p.1) ++
          buf1.drop data2.length)[i]?.isSome = true
      rw [List.getElem?_eq_getElem (by omega : i < _)]
      rfl

/-- C10 witness: a one-element collection; growing it to two elements makes
`Sort` fail at index 1, keeping it at one element succeeds with the buffer
still of length 1 and index 0 in bounds. -/
theorem sorter_buffer_bounds_witness :
    (∃ buf, (NewSorterBuf [true] (fun b => cond b "a" "b")
        (fun a b : Bool => !a && b) NewSortOptions).results = some buf ∧
        buf.length = [true].length) ∧
    (SorterBuf.SortChecked
        { NewSorterBuf [true] (fun b => cond b "a" "b")
            (fun a b : Bool => !a && b) NewSortOptions with
          Data := [true, false] } "a" = .error [true].length) ∧
    (∃ buf2 data3,
      SorterBuf.SortChecked
          { NewSorterBuf [true] (fun b => cond b "a" "b")
              (fun a b : Bool => !a && b) NewSortOptions with
            Data := [true] } "a" = .ok (buf2, data3) ∧
        buf2.length = [true].length ∧
        ∀ i < [true].length,
          (SorterBuf.ResultAt
            { NewSorterBuf [true] (fun b => cond b "a" "b")
                (fun a b : Bool => !a && b) NewSortOptions with
              Data := [true], results := some buf2 } i).isSome = true) := by
  have h := sorter_buffer_bounds [true] (fun b => cond b "a" "b")
    (fun a b : Bool => !a && b) NewSortOptions "a"
  exact ⟨h.1, h.2.1 [true, false] (by decide), h.2.2 [true] (by decide)⟩

end AwGo
